import Mathlib

/-!
Verification development for the matrux client-side state cache
(src/room.rs, src/store.rs, src/events.rs), shallowly embedded in Lean.

Rust `HashMap<String, V>` is modelled as an association list with
insert-replaces-value semantics; Rust panics (`unwrap` / `expect`) are
modelled as the `Except.error` branch carrying the panic message.
-/

/-- Association-list model of Rust `std::collections::HashMap<String, α>`. -/
abbrev HMap (α : Type) := List (String × α)

/-- Model of `HashMap::get`: value of the first entry for `key`, if any. -/
def getA {α : Type} : HMap α → String → Option α
  | [], _ => none
  | (k, v) :: rest, key => if k = key then some v else getA rest key

/-- Model of `HashMap::contains_key`. -/
def containsA {α : Type} (m : HMap α) (key : String) : Bool :=
  (getA m key).isSome

/-- Model of `HashMap::insert`: replaces the value when the key is present,
otherwise adds the binding. -/
def insertA {α : Type} : HMap α → String → α → HMap α
  | [], key, val => [(key, val)]
  | (k, v) :: rest, key, val =>
      if k = key then (k, val) :: rest else (k, v) :: insertA rest key val

/-- Model of `HashMap::entry(key).and_modify(f)`: applies `f` to the resident
value when the key is present; otherwise leaves the map unchanged (no
`or_insert` follows in the source, so nothing is inserted). -/
def modifyA {α : Type} : HMap α → String → (α → α) → HMap α
  | [], _, _ => []
  | (k, v) :: rest, key, f =>
      if k = key then (k, f v) :: rest else (k, v) :: modifyA rest key f

/-- Embedding of `events.rs::Event<T>` (all fields, in source order).
`time_stamp` is Rust `i64`, modelled as `Int`; the three `HashMap<String, T>`
fields are association lists. -/
structure Event (T : Type) where
  state_key : String
  sender : String
  etype : String
  time_stamp : Int
  id : String
  room_id : String
  redacts : String
  unsigned : HMap T
  content : HMap T
  prev_content : HMap T
  is_init : Bool
  deriving DecidableEq

/-- Embedding of `room.rs::Room<T>`: a room id and the two-level state map
`HashMap<String, HashMap<String, Event<T>>>`. -/
structure Room (T : Type) where
  id : String
  state : HMap (HMap (Event T))
  deriving DecidableEq

/-- Embedding of `Room::new`: empty state map. -/
def Room.new {T : Type} (id : String) : Room T :=
  { id := id, state := [] }

/-- Embedding of `Room::update_state` (room.rs lines 32-46), statement by
statement:
1. `exists = state.contains_key(etype)`;
2. if not, `state.insert(etype, HashMap::new())` — an empty inner map;
3. `state.entry(etype).and_modify(|value| value.entry(state_key).and_modify(|inner| ...))`.
The innermost closure is `let mut inner_val = inner; inner_val = &mut event;`:
it rebinds the local `inner_val` instead of writing through the reference, so
it leaves the resident value unchanged; it is embedded as `fun inner => inner`.
No `or_insert` appears anywhere, so the event itself is never inserted into
the inner map. -/
def Room.update_state {T : Type} (r : Room T) (event : Event T) : Room T :=
  let ex := containsA r.state event.etype
  let state1 := if ex then r.state else insertA r.state event.etype []
  let state2 := modifyA state1 event.etype (fun value =>
    modifyA value event.state_key (fun inner => inner))
  { r with state := state2 }

/-- Embedding of `Room::get_state_event` (room.rs lines 48-57).
`state.get(&event_type).expect("event type should exist in state")` panics
when the event type is absent; the panic is modelled as `Except.error` with
the `expect` message. On success the inner lookup returns an `Option`. -/
def Room.get_state_event {T : Type} (r : Room T) (event_type state_key : String) :
    Except String (Option (Event T)) :=
  match getA r.state event_type with
  | none => .error "event type should exist in state"
  | some state_event_map => .ok (getA state_event_map state_key)

/-- Embedding of `Room::get_membership_state` (room.rs lines 59-74).
The parameter `f` models the `String: From<&T>` bound used by
`String::from(membership_state)`. The `.unwrap()` on the `content`
lookup is modelled as `Except.error` on `none`; a panic inside
`get_state_event` propagates as the same `Except.error`. -/
def Room.get_membership_state {T : Type} (f : T → String) (r : Room T)
    (user_id : String) : Except String String :=
  match r.get_state_event "m.room.member" user_id with
  | .error e => .error e
  | .ok none => .ok "leave"
  | .ok (some event) =>
      match getA event.content "membership" with
      | none => .error "called unwrap on a None value"
      | some membership_state => .ok (f membership_state)

/-- Embedding of `store.rs::InMemoryStore<T>`: the three independent
`HashMap`-backed key spaces. -/
structure InMemoryStore (T : Type) where
  filters : HMap String
  next_batch : HMap String
  rooms : HMap (Room T)
  deriving DecidableEq

/-- Embedding of `InMemoryStore::new`: all three maps empty. -/
def InMemoryStore.new {T : Type} : InMemoryStore T :=
  { filters := [], next_batch := [], rooms := [] }

/-- Embedding of `InMemoryStore::save_filter_id` (store.rs lines 21-23). -/
def InMemoryStore.save_filter_id {T : Type} (s : InMemoryStore T)
    (user_id filter_id : String) : InMemoryStore T :=
  { s with filters := insertA s.filters user_id filter_id }

/-- Embedding of `InMemoryStore::load_filter_id` (store.rs lines 25-27):
`self.filters.get(&user_id).unwrap().to_owned()`. The `.unwrap()` panic on an
unseen key is modelled as `Except.error`. -/
def InMemoryStore.load_filter_id {T : Type} (s : InMemoryStore T)
    (user_id : String) : Except String String :=
  match getA s.filters user_id with
  | none => .error "called unwrap on a None value"
  | some v => .ok v

/-- Embedding of `InMemoryStore::save_next_batch` (store.rs lines 29-31). -/
def InMemoryStore.save_next_batch {T : Type} (s : InMemoryStore T)
    (user_id next_batch_token : String) : InMemoryStore T :=
  { s with next_batch := insertA s.next_batch user_id next_batch_token }

/-- Embedding of `InMemoryStore::load_next_batch` (store.rs lines 33-35):
`self.next_batch.get(&user_id).unwrap().to_owned()`; `.unwrap()` panic
modelled as `Except.error`. -/
def InMemoryStore.load_next_batch {T : Type} (s : InMemoryStore T)
    (user_id : String) : Except String String :=
  match getA s.next_batch user_id with
  | none => .error "called unwrap on a None value"
  | some v => .ok v

/-- Embedding of `InMemoryStore::save_room` (store.rs lines 37-40):
inserts the room keyed by its own `id`. -/
def InMemoryStore.save_room {T : Type} (s : InMemoryStore T)
    (room : Room T) : InMemoryStore T :=
  { s with rooms := insertA s.rooms room.id room }

/-- Embedding of `InMemoryStore::load_room` (store.rs lines 42-44):
`self.rooms.get(&room_id).unwrap().to_owned().clone()`; `.unwrap()` panic
modelled as `Except.error`; the clone returns the stored value itself. -/
def InMemoryStore.load_room {T : Type} (s : InMemoryStore T)
    (room_id : String) : Except String (Room T) :=
  match getA s.rooms room_id with
  | none => .error "called unwrap on a None value"
  | some r => .ok r

/-- Receiver mode of a Rust method: `self` (consuming, by value), `&self`,
or `&mut self`. -/
inductive SelfArg where
  | consumed
  | byRef
  | byMutRef
  deriving DecidableEq

/-- Receiver modes of the six `Storer` trait methods, transcribed from the
trait declaration in store.rs lines 5-12: the `save_*` methods take
`&mut self`, the `load_*` methods take `self` by value. -/
def storer_self_args : HMap SelfArg :=
  [("save_filter_id", SelfArg.byMutRef),
   ("load_filter_id", SelfArg.consumed),
   ("save_next_batch", SelfArg.byMutRef),
   ("load_next_batch", SelfArg.consumed),
   ("save_room", SelfArg.byMutRef),
   ("load_room", SelfArg.consumed)]

/-- Model of the external crate call `html_escape::decode_html_entities`,
restricted to the standard named entities `&amp;` `&lt;` `&gt;` `&quot;`.
The crate decodes a larger entity table, but every claim below applies the
same decoder on both the code side and the spec side, so the restriction
does not affect any comparison, and the concrete inputs used only contain
`&amp;`. -/
def decodeEntities : List Char → List Char
  | '&' :: 'a' :: 'm' :: 'p' :: ';' :: rest => '&' :: decodeEntities rest
  | '&' :: 'l' :: 't' :: ';' :: rest => '<' :: decodeEntities rest
  | '&' :: 'g' :: 't' :: ';' :: rest => '>' :: decodeEntities rest
  | '&' :: 'q' :: 'u' :: 'o' :: 't' :: ';' :: rest => '"' :: decodeEntities rest
  | c :: rest => c :: decodeEntities rest
  | [] => []

/-- One lazy match attempt of the regex `<[^<]+?>` (events.rs line 8), on the
characters following a `<`. `seen` records whether at least one `[^<]`
character has been consumed. Returns the characters after the terminating
`>` of the shortest match, or `none` when no match starts here: the match
consumes one or more non-`<` characters (the first may itself be `>`) and
ends at the first `>` thereafter. -/
def scanTag : Bool → List Char → Option (List Char)
  | _, [] => none
  | seen, c :: rest =>
      if seen = true ∧ c = '>' then some rest
      else if c = '<' then none
      else scanTag true rest

/-- Direct rendering of `HTML_REGEX.replace_all(text, "")` with the regex
`<[^<]+?>`: scan left to right; at each `<` attempt the lazy match via
`scanTag`; on success drop the matched span and continue after it, on
failure keep the character and retry at the next position. Only `<` can
start a match. -/
def regexStrip (l : List Char) : List Char :=
  match l with
  | [] => []
  | c :: rest =>
      if c = '<' then
        match h : scanTag false rest with
        | some rest2 => regexStrip rest2
        | none => c :: regexStrip rest
      else c :: regexStrip rest
termination_by l.length
decreasing_by
  · have key : ∀ {seen : Bool} {l l' : List Char},
        scanTag seen l = some l' → l'.length < l.length := by
      intro seen l
      induction l generalizing seen with
      | nil => intro l' hh; simp [scanTag] at hh
      | cons c rest ih =>
          intro l' hh
          simp only [scanTag] at hh
          by_cases h1 : seen = true ∧ c = '>'
          · rw [if_pos h1] at hh
            cases hh
            exact Nat.lt_succ_self _
          · rw [if_neg h1] at hh
            by_cases h2 : c = '<'
            · rw [if_pos h2] at hh; cases hh
            · rw [if_neg h2] at hh
              exact Nat.lt_trans (ih hh) (Nat.lt_succ_self _)
    exact Nat.lt_trans (key h) (Nat.lt_succ_self _)
  · exact Nat.lt_succ_self _
  · exact Nat.lt_succ_self _

/-- Single-pass equivalent of `regexStrip`, used so that concrete inputs
evaluate by kernel reduction. The state `some buf` means a `<` is pending
with `buf` the `[^<]` characters consumed so far; on `<` or end of input the
pending attempt fails and the buffered characters are emitted (no later
match can start inside them, since none of them is `<`); on `>` after at
least one consumed character the match completes and the span is dropped.
`stripGo_eq_regexStrip` below proves the equivalence. -/
def stripGo : List Char → Option (List Char) → List Char
  | [], none => []
  | [], some buf => '<' :: buf
  | c :: rest, none =>
      if c = '<' then stripGo rest (some []) else c :: stripGo rest none
  | c :: rest, some buf =>
      if c = '<' then ('<' :: buf) ++ stripGo rest (some [])
      else if c = '>' ∧ buf ≠ [] then stripGo rest none
      else stripGo rest (some (buf ++ [c]))

/-- Model of `HTML_REGEX.replace_all(&html_text, "")` (events.rs line 219). -/
def stripTags (l : List Char) : List Char := stripGo l none

/-- Embedding of `events.rs::HTMLMessage` (lines 163-169). -/
structure HTMLMessage where
  message_type : String
  body : String
  formatted_body : String
  format : String
  deriving DecidableEq

/-- Embedding of `events.rs::get_html_message` (lines 216-224): the plain
body is the entity-decoded result of stripping the regex matches from the
input; the formatted body is the input unmodified; the format string is
`org.matrix.custom.html`. -/
def get_html_message (message_type html_text : String) : HTMLMessage :=
  { message_type := message_type,
    body := String.mk (decodeEntities (stripTags html_text.data)),
    formatted_body := html_text,
    format := "org.matrix.custom.html" }

/-- Formalisation of the claim wording for the stripping rule: remove every
span running from a `<` through the next `>` (inclusive, possibly empty in
between, regardless of the characters inside); a `<` with no later `>` is
kept together with the text after it. -/
def naiveStripGo : List Char → Option (List Char) → List Char
  | [], none => []
  | [], some buf => '<' :: buf
  | c :: rest, none =>
      if c = '<' then naiveStripGo rest (some []) else c :: naiveStripGo rest none
  | c :: rest, some buf =>
      if c = '>' then naiveStripGo rest none
      else naiveStripGo rest (some (buf ++ [c]))

/-- The claim's stripping rule, packaged. -/
def naiveStrip (l : List Char) : List Char := naiveStripGo l none

/-- Invariant of the pending buffer in `stripGo`: its characters are all
`[^<]`, and only its first character may be `>` (a later `>` would already
have completed the match). -/
def BufOk : List Char → Prop
  | [] => True
  | d :: t => d ≠ '<' ∧ ∀ x ∈ t, x ≠ '<' ∧ x ≠ '>'

/-- Concrete state event: an `m.room.name` event carrying the name
`first`, used as event A in the last-write-wins scenario. -/
def eventA : Event String :=
  { state_key := "", sender := "@alice:example.org", etype := "m.room.name",
    time_stamp := 1, id := "$a:example.org", room_id := "!room:example.org",
    redacts := "", unsigned := [], content := [("name", "first")],
    prev_content := [], is_init := false }

/-- Concrete state event with the same `(etype, state_key)` as `eventA`,
carrying the name `second` and a later timestamp, used as event B. -/
def eventB : Event String :=
  { state_key := "", sender := "@alice:example.org", etype := "m.room.name",
    time_stamp := 2, id := "$b:example.org", room_id := "!room:example.org",
    redacts := "", unsigned := [], content := [("name", "second")],
    prev_content := [], is_init := false }

/-- Lookup after insert at the same key returns the inserted value. -/
theorem getA_insertA_self {α : Type} (m : HMap α) (key : String) (v : α) :
    getA (insertA m key v) key = some v := by
  induction m with
  | nil => simp [insertA, getA]
  | cons p rest ih =>
      obtain ⟨k, w⟩ := p
      by_cases h : k = key
      · simp [insertA, h, getA]
      · simp [insertA, h, getA, ih]

/-- A key just inserted is contained. -/
theorem containsA_insertA_self {α : Type} (m : HMap α) (key : String) (v : α) :
    containsA (insertA m key v) key = true := by
  simp [containsA, getA_insertA_self]

/-- Modifying with a pointwise-identity function leaves the map unchanged. -/
theorem modifyA_eq_self {α : Type} (m : HMap α) (key : String) (f : α → α)
    (hf : ∀ v, f v = v) : modifyA m key f = m := by
  induction m with
  | nil => rfl
  | cons p rest ih =>
      obtain ⟨k, w⟩ := p
      by_cases h : k = key
      · simp [modifyA, h, hf]
      · simp [modifyA, h, ih]

/-- Closed form of `Room.update_state`: since the nested `and_modify`
closures leave resident values unchanged and nothing is ever inserted into
the inner map, the whole call only ensures an (empty) inner map exists for
`e.etype`. -/
theorem update_state_eq {T : Type} (r : Room T) (e : Event T) :
    r.update_state e =
      { r with state := if containsA r.state e.etype then r.state
                        else insertA r.state e.etype [] } := by
  have hmod : ∀ m : HMap (HMap (Event T)),
      modifyA m e.etype (fun value => modifyA value e.state_key (fun inner => inner)) = m :=
    fun m => modifyA_eq_self m _ _ (fun v => modifyA_eq_self v _ _ (fun i => rfl))
  simp only [Room.update_state]
  rw [hmod]

/-- Applying the same state event twice produces the same Room value as
applying it once. -/
theorem update_state_idem {T : Type} (r : Room T) (e : Event T) :
    (r.update_state e).update_state e = r.update_state e := by
  rw [update_state_eq r e, update_state_eq]
  by_cases h : containsA r.state e.etype
  · simp [h]
  · simp [h, containsA_insertA_self]

/-- Unfolding: `regexStrip` on the empty list. -/
theorem regexStrip_nil : regexStrip [] = [] := by
  rw [regexStrip.eq_def]

/-- Unfolding: a character other than `<` cannot start a match and is kept. -/
theorem regexStrip_cons_ne {c : Char} (h : c ≠ '<') (rest : List Char) :
    regexStrip (c :: rest) = c :: regexStrip rest := by
  rw [regexStrip.eq_def]
  simp [h]

/-- Unfolding: a `<` whose match attempt succeeds drops the matched span. -/
theorem regexStrip_lt_some {rest rest2 : List Char} (h : scanTag false rest = some rest2) :
    regexStrip ('<' :: rest) = regexStrip rest2 := by
  rw [regexStrip.eq_def]
  simp only
  simp only [if_true]
  split
  · rename_i x heq
    rw [h] at heq
    cases heq
    rfl
  · rename_i heq
    rw [h] at heq
    cases heq

/-- Unfolding: a `<` whose match attempt fails is kept. -/
theorem regexStrip_lt_none {rest : List Char} (h : scanTag false rest = none) :
    regexStrip ('<' :: rest) = '<' :: regexStrip rest := by
  rw [regexStrip.eq_def]
  simp only
  simp only [if_true]
  split
  · rename_i x heq
    rw [h] at heq
    cases heq
  · rfl

/-- A run of characters that are neither `<` nor `>` is consumed by the lazy
scan without resolving it. -/
theorem scanTag_append {t : List Char} (ht : ∀ x ∈ t, x ≠ '<' ∧ x ≠ '>') (l : List Char) :
    scanTag true (t ++ l) = scanTag true l := by
  induction t with
  | nil => rfl
  | cons x t' ih =>
      have hx := ht x (by simp)
      have ht' : ∀ y ∈ t', y ≠ '<' ∧ y ≠ '>' := fun y hy => ht y (by simp [hy])
      simp only [List.cons_append, scanTag]
      rw [if_neg (fun hco => hx.2 hco.2), if_neg hx.1]
      exact ih ht'

/-- The first consumed character of a match attempt may be any non-`<`
character, after which the scan continues with `seen = true`. -/
theorem scanTag_false_step {d : Char} (hd : d ≠ '<') (m : List Char) :
    scanTag false (d :: m) = scanTag true m := by
  simp only [scanTag]
  rw [if_neg (by simp), if_neg hd]

/-- A `<` aborts a match attempt that has already consumed a character. -/
theorem scanTag_true_lt (rest : List Char) : scanTag true ('<' :: rest) = none := by
  simp [scanTag]

/-- A `>` completes a match attempt that has already consumed a character. -/
theorem scanTag_true_gt (rest : List Char) : scanTag true ('>' :: rest) = some rest := by
  simp [scanTag]

/-- No match starts at a `<` immediately followed by another `<`. -/
theorem scanTag_false_lt (rest : List Char) : scanTag false ('<' :: rest) = none := by
  simp [scanTag]

/-- A prefix without `<` passes through `regexStrip` unchanged. -/
theorem regexStrip_append {b : List Char} (hb : ∀ x ∈ b, x ≠ '<') (l : List Char) :
    regexStrip (b ++ l) = b ++ regexStrip l := by
  induction b with
  | nil => simp
  | cons x b' ih =>
      have hx : x ≠ '<' := hb x (by simp)
      have hb' : ∀ y ∈ b', y ≠ '<' := fun y hy => hb y (by simp [hy])
      rw [List.cons_append, regexStrip_cons_ne hx, ih hb', List.cons_append]

/-- The buffer invariant implies the buffer has no `<`. -/
theorem BufOk.no_lt {buf : List Char} (h : BufOk buf) : ∀ x ∈ buf, x ≠ '<' := by
  cases buf with
  | nil => intro x hx; cases hx
  | cons d t =>
      intro x hx
      rcases List.mem_cons.mp hx with hx | hx
      · subst hx; exact h.1
      · exact (h.2 x hx).1

/-- A list without `<` is a fixed point of `regexStrip`. -/
theorem regexStrip_self {b : List Char} (hb : ∀ x ∈ b, x ≠ '<') : regexStrip b = b := by
  have h := regexStrip_append hb ([] : List Char)
  rwa [List.append_nil, regexStrip_nil, List.append_nil] at h

/-- Correctness of the single-pass scan against the literal regex semantics:
in the outside state it agrees with `regexStrip`, and in a pending state it
agrees with `regexStrip` restarted at the buffered `<`. -/
theorem stripGo_spec (l : List Char) :
    (∀ buf, BufOk buf → stripGo l (some buf) = regexStrip ('<' :: (buf ++ l))) ∧
    stripGo l none = regexStrip l := by
  induction l with
  | nil =>
      refine ⟨?_, by rw [regexStrip_nil]; rfl⟩
      intro buf hbuf
      show '<' :: buf = regexStrip ('<' :: (buf ++ []))
      rw [List.append_nil]
      have hscan : scanTag false buf = none := by
        cases buf with
        | nil => rfl
        | cons d t =>
            rw [scanTag_false_step hbuf.1]
            have h2 := scanTag_append hbuf.2 ([] : List Char)
            rw [List.append_nil] at h2
            rw [h2]
            rfl
      rw [regexStrip_lt_none hscan, regexStrip_self (BufOk.no_lt hbuf)]
  | cons c rest ih =>
      obtain ⟨ihs, ihn⟩ := ih
      have e0 : stripGo (c :: rest) none =
          if c = '<' then stripGo rest (some []) else c :: stripGo rest none := rfl
      have e1 : ∀ buf, stripGo (c :: rest) (some buf) =
          if c = '<' then ('<' :: buf) ++ stripGo rest (some [])
          else if c = '>' ∧ buf ≠ [] then stripGo rest none
          else stripGo rest (some (buf ++ [c])) := fun buf => rfl
      have hso : stripGo rest (some []) = regexStrip ('<' :: rest) := by
        have h := ihs [] trivial
        rwa [List.nil_append] at h
      constructor
      · intro buf hbuf
        rw [e1 buf]
        by_cases hc : c = '<'
        · subst hc
          rw [if_pos rfl, hso]
          have hscan : scanTag false (buf ++ '<' :: rest) = none := by
            cases buf with
            | nil => rw [List.nil_append]; exact scanTag_false_lt rest
            | cons d t =>
                rw [List.cons_append, scanTag_false_step hbuf.1,
                  scanTag_append hbuf.2, scanTag_true_lt]
          rw [regexStrip_lt_none hscan, regexStrip_append (BufOk.no_lt hbuf),
            List.cons_append]
        · rw [if_neg hc]
          by_cases hg : c = '>' ∧ buf ≠ []
          · rw [if_pos hg]
            obtain ⟨hgt, hne⟩ := hg
            subst hgt
            cases buf with
            | nil => exact absurd rfl hne
            | cons d t =>
                have hscan : scanTag false ((d :: t) ++ '>' :: rest) = some rest := by
                  rw [List.cons_append, scanTag_false_step hbuf.1,
                    scanTag_append hbuf.2, scanTag_true_gt]
                rw [regexStrip_lt_some hscan, ihn]
          · rw [if_neg hg]
            have hbuf2 : BufOk (buf ++ [c]) := by
              cases buf with
              | nil =>
                  refine ⟨hc, ?_⟩
                  intro x hx
                  cases hx
              | cons d t =>
                  refine ⟨hbuf.1, ?_⟩
                  intro x hx
                  rcases List.mem_append.mp hx with hx | hx
                  · exact hbuf.2 x hx
                  · have hxc : x = c := by simpa using hx
                    subst hxc
                    refine ⟨hc, fun hxg => hg ⟨hxg, by simp⟩⟩
            rw [ihs (buf ++ [c]) hbuf2]
            have hre : (buf ++ [c]) ++ rest = buf ++ c :: rest := by
              simp [List.append_assoc]
            rw [hre]
      · rw [e0]
        by_cases hc : c = '<'
        · subst hc
          rw [if_pos rfl, hso]
        · rw [if_neg hc, ihn, regexStrip_cons_ne hc]

/-- The single-pass scan used by `get_html_message` computes exactly the
literal lazy-regex replacement. -/
theorem stripTags_eq_regexStrip (l : List Char) : stripTags l = regexStrip l :=
  (stripGo_spec l).2

/-- C1: the last-write-wins claim fails on the code. Applying `eventA` and
then `eventB` (same `(etype, state_key) = ("m.room.name", "")`) to a fresh
Room leaves NO resident event for that pair: `update_state` never inserts
the event into the inner map (the inner `and_modify` closure only rebinds a
local reference and no `or_insert` exists), so `get_state_event` returns
absent, not `eventB`. -/
theorem update_state_drops_both_events :
    (((Room.new "!room:example.org").update_state eventA).update_state
        eventB).get_state_event "m.room.name" "" = Except.ok none
    ∧ (Except.ok none : Except String (Option (Event String)))
        ≠ Except.ok (some eventB) := by
  refine ⟨rfl, ?_⟩
  intro h
  simp at h

/-- C2: the absence-safety claim fails on the code. On a fresh Room, which
has never observed any event type, `get_state_event` hits the
`.expect("event type should exist in state")` and panics (modelled as
`Except.error` with the panic message) instead of returning absent. -/
theorem get_state_event_panics_on_unseen_type :
    (Room.new (T := String) "!room:example.org").get_state_event "m.room.name" ""
      = Except.error "event type should exist in state" := rfl

/-- C3: the store-reusability claim fails on the code. The `Storer` trait
declares all three load methods with a by-value `self` receiver, consuming
the store, not the by-reference receiver the claim requires. -/
theorem storer_load_methods_consume_self :
    getA storer_self_args "load_filter_id" = some SelfArg.consumed
    ∧ getA storer_self_args "load_next_batch" = some SelfArg.consumed
    ∧ getA storer_self_args "load_room" = some SelfArg.consumed
    ∧ SelfArg.consumed ≠ SelfArg.byRef := by
  decide

/-- C4: the not-found-signalling claim fails on the code. On a fresh
`InMemoryStore` each load method calls `.unwrap()` on the missing entry and
panics (modelled as `Except.error` with the panic message) instead of
returning a distinguishable NotFound value. -/
theorem load_methods_panic_on_unseen_key :
    (InMemoryStore.new (T := String)).load_filter_id "@alice:example.org"
      = Except.error "called unwrap on a None value"
    ∧ (InMemoryStore.new (T := String)).load_next_batch "@alice:example.org"
      = Except.error "called unwrap on a None value"
    ∧ (InMemoryStore.new (T := String)).load_room "!room:example.org"
      = Except.error "called unwrap on a None value" := by
  exact ⟨rfl, rfl, rfl⟩

/-- C5: the membership-default claim fails on the code in the case it
explicitly includes: on a Room to which no `m.room.member` event of any key
has ever been applied, `get_membership_state` propagates the
`get_state_event` panic instead of returning `leave`. -/
theorem get_membership_state_panics_without_member_events :
    Room.get_membership_state (fun s => s)
        (Room.new (T := String) "!room:example.org") "@alice:example.org"
      = Except.error "event type should exist in state" := rfl

/-- C6: Room snapshot round-trip. For every in-memory store and every Room,
`save_room` followed by `load_room` on the room's own id returns exactly the
saved Room (same id and same state mapping). -/
theorem load_room_save_room_roundtrip {T : Type} (s : InMemoryStore T) (r : Room T) :
    (s.save_room r).load_room r.id = Except.ok r := by
  simp [InMemoryStore.save_room, InMemoryStore.load_room, getA_insertA_self]

/-- C7 counterexample: the claim's stripping rule (remove everything from
each `<` to the next `>`) disagrees with the code on the input string
containing the characters lt, a, lt, b, gt. The regex `<[^<]+?>` cannot
match at the first `<` because of the nested `<`, so the code's plain body
keeps the prefix consisting of lt then a, while the claim's rule strips the
whole input. -/
theorem get_html_message_differs_from_naive_strip :
    (get_html_message "m.text" "<a<b>").body
      ≠ String.mk (decodeEntities (naiveStrip ("<a<b>" : String).data)) := by
  decide

/-- C7 amended: for every input, the formatted body is the input unmodified,
and the plain body is obtained by removing every leftmost match of the
pattern "a `<`, then one or more non-`<` characters (the first of which may
be `>`), up to the first `>` thereafter" — a `<` not followed by such a span
is kept — and then decoding HTML entities in the remaining text. -/
theorem get_html_message_strips_regex_matches (mt s : String) :
    (get_html_message mt s).formatted_body = s
    ∧ (get_html_message mt s).body = String.mk (decodeEntities (regexStrip s.data)) := by
  refine ⟨rfl, ?_⟩
  simp [get_html_message, stripTags_eq_regexStrip]

/-- C8: on the input consisting of an opening p tag, the text
`Hi &amp; bye`, and a closing p tag, the conversion leaves the formatted
body unchanged and produces the plain body `Hi & bye`. -/
theorem get_html_message_example :
    (get_html_message "m.text" "<p>Hi &amp; bye</p>").formatted_body
        = "<p>Hi &amp; bye</p>"
    ∧ (get_html_message "m.text" "<p>Hi &amp; bye</p>").body = "Hi & bye" := by
  exact ⟨rfl, by decide⟩

/-- C9: idempotence of state application. Applying the same state event
twice yields a room observably identical to applying it once: every
`get_state_event` query gives the same answer (here the two rooms are in
fact equal as values). -/
theorem update_state_idempotent_observation {T : Type} (r : Room T) (e : Event T)
    (etype skey : String) :
    ((r.update_state e).update_state e).get_state_event etype skey
      = (r.update_state e).get_state_event etype skey := by
  rw [update_state_idem]

/-- C10: state application never changes the room's id. -/
theorem update_state_preserves_id {T : Type} (r : Room T) (e : Event T) :
    (r.update_state e).id = r.id := rfl
